import Mathlib

/-!
A shallow embedding of the FileShareApp peer-to-peer node (src/peer.py and
src/backend.py) and proofs about its peer directory, wire-protocol codec and
discovery-protocol handlers.

Python strings are modelled as lists of Unicode code points (`Str`), byte
strings as lists of naturals below 256, and Python dictionaries as
association lists in insertion order (Python dicts iterate in insertion
order).  Operations that can raise a Python exception return `Except PyErr`.
-/

namespace FileShareApp

/-- Python strings, as their list of characters. -/
abbrev Str := List Char

/-- Shorthand turning a Lean string literal into the `Str` model. -/
def pstr (s : String) : Str := s.toList

/-- Exceptions a modelled operation can raise. -/
inductive PyErr where
  | typeError
  | valueError
  | assertionError
  deriving DecidableEq, Repr

/-- The ASCII whitespace characters recognised by Python's `str.split()`
(Python additionally treats some rarer Unicode space characters as
whitespace; the protocol only ever splits ASCII-framed payloads). -/
def isSpace (c : Char) : Bool :=
  c = ' ' || c = '\t' || c = '\n' || c = '\r' || c = '\x0b' || c = '\x0c'

/-- Worker for `pySplit`: `w` holds the current word, reversed. -/
def pySplitAux : Str → Str → List Str
  | [], w => if w = [] then [] else [w.reverse]
  | c :: rest, w =>
    if isSpace c then
      if w = [] then pySplitAux rest [] else w.reverse :: pySplitAux rest []
    else
      pySplitAux rest (c :: w)

/-- Python `s.split()`: split on runs of whitespace, dropping empty words. -/
def pySplit (s : Str) : List Str := pySplitAux s []

/-- Worker for `splitOnChar`: `w` holds the current piece, reversed. -/
def splitOnCharAux (sep : Char) : Str → Str → List Str
  | [], w => [w.reverse]
  | c :: rest, w =>
    if c = sep then w.reverse :: splitOnCharAux sep rest []
    else splitOnCharAux sep rest (c :: w)

/-- Python `s.split(sep)` for a single-character separator: empty pieces are
kept, and the empty string yields one empty piece. -/
def splitOnChar (sep : Char) (s : Str) : List Str := splitOnCharAux sep s []

/-- Digit run accepted by Python `int()`: nonempty, all ASCII digits. -/
def digitsVal (ds : Str) : Option Nat :=
  if ds ≠ [] ∧ ds.all (·.isDigit) then
    some (ds.foldl (fun a c => a * 10 + (c.toNat - 48)) 0)
  else none

/-- Python `int(s)` on a string: strip whitespace, optional sign, decimal
digits; `none` models the `ValueError` raised on anything else. -/
def pyInt (s : Str) : Option Int :=
  let t := ((s.dropWhile isSpace).reverse.dropWhile isSpace).reverse
  match t with
  | '+' :: ds => (digitsVal ds).map (fun n => (n : Int))
  | '-' :: ds => (digitsVal ds).map (fun n => -(n : Int))
  | ds => (digitsVal ds).map (fun n => (n : Int))

/-- `pat` is a prefix of `s` (Python `s.startswith(pat)`). -/
def beginsWith : Str → Str → Bool
  | [], _ => true
  | _ :: _, [] => false
  | a :: ps, b :: ss => a = b && beginsWith ps ss

/-- Python `key in s` on strings: `key` occurs as a contiguous substring. -/
def pyInStr (key : Str) : Str → Bool
  | [] => beginsWith key []
  | c :: rest => beginsWith key (c :: rest) || pyInStr key rest

/-- Python `str(i)` for an `Int`. -/
def intStr (i : Int) : Str := (toString i).toList

/-- Keys of an association list, in insertion order. -/
def keys {α : Type} (l : List (Str × α)) : List Str := l.map (·.1)

/-- Python `d[k] = v` on a dict modelled as an association list: update the
existing entry in place, else append a new entry. -/
def dictSet {α : Type} (l : List (Str × α)) (k : Str) (v : α) : List (Str × α) :=
  if k ∈ keys l then l.map (fun e => if e.1 = k then (k, v) else e)
  else l ++ [(k, v)]

/-- Python `d.get`/`d[k]` lookup: first entry with key `k`, if any. -/
def dictFind {α : Type} (l : List (Str × α)) (k : Str) : Option α :=
  (l.find? (fun e => decide (e.1 = k))).map (·.2)

/--
State of one `MyPeer` node (class `Peer` in src/peer.py plus the `files`
index added by `MyPeer` in src/backend.py):
`maxPeers` bounds the directory (0 = unbounded), `myId` is the node's own
canonical name, `peers` maps peer id to `(host, port)` and `files` maps a
filename to its owning peer id (`none` = the Python `None` local sentinel).
-/
structure PeerState where
  maxPeers : Nat
  myId : Str
  peers : List (Str × Str × Int)
  files : List (Str × Option Str)
  deriving DecidableEq, Repr

/-- `Peer.addPeer(peerid, host, port)` (src/peer.py lines 137-146): insert
only if the id is new and the capacity (0 = unlimited) is not exhausted;
returns the success flag.  `int(port)` is evaluated only on the insert path
and raises `ValueError` on a non-numeric port. -/
def addPeer (st : PeerState) (peerid host port : Str) :
    Except PyErr (Bool × PeerState) :=
  if peerid ∉ keys st.peers ∧ (st.maxPeers = 0 ∨ st.peers.length < st.maxPeers) then
    match pyInt port with
    | some p => .ok (true, { st with peers := dictSet st.peers peerid (host, p) })
    | none => .error .valueError
  else
    .ok (false, st)

/-- `Peer.removePeer(peerid)` (src/peer.py lines 153-156). -/
def removePeer (st : PeerState) (peerid : Str) : PeerState :=
  if peerid ∈ keys st.peers then
    { st with peers := st.peers.filter (fun e => decide (e.1 ≠ peerid)) }
  else st

/-- `Peer.maxPeersReached()` (src/peer.py lines 185-192): the `assert` that
guards it raises `AssertionError` outside the documented invariant. -/
def maxPeersReached (st : PeerState) : Except PyErr Bool :=
  if st.maxPeers = 0 ∨ st.peers.length ≤ st.maxPeers then
    .ok (decide (0 < st.maxPeers ∧ st.peers.length = st.maxPeers))
  else .error .assertionError

/-- An argument at a Python call site: either the `self` object passed
positionally or a string. -/
inductive CallArg where
  | selfRef (st : PeerState)
  | strArg (s : Str)

/-- A call to the bound method `self.removePeer` with an explicit positional
argument list.  `removePeer` accepts exactly one argument besides the bound
`self`; any other arity raises `TypeError` before the body runs. -/
def callRemovePeer (st : PeerState) (args : List CallArg) :
    Except PyErr PeerState :=
  match args with
  | [.strArg s] => .ok (removePeer st s)
  | [.selfRef _] => .ok st
  | _ => .error .typeError

/-- `Peer.removePeerAt(loc)` (src/peer.py lines 173-175): its body is
`self.removePeer(self, loc)`, i.e. a two-argument call. -/
def removePeerAt (st : PeerState) (loc : Str) : Except PyErr PeerState :=
  callRemovePeer st [.selfRef st, .strArg loc]

/-- One attempted `addPeer` call: an exception leaves the directory as it
was, otherwise the updated state is kept. -/
def addStep (st : PeerState) (op : Str × Str × Str) : PeerState :=
  match addPeer st op.1 op.2.1 op.2.2 with
  | .ok (_, st') => st'
  | .error _ => st

/-- A sequence of attempted `addPeer` calls, applied in order. -/
def runAdds (st : PeerState) (ops : List (Str × Str × Str)) : PeerState :=
  ops.foldl addStep st

/-- A freshly constructed node: empty directory, empty file index. -/
def initState (maxPeers : Nat) (myId : Str) : PeerState :=
  ⟨maxPeers, myId, [], []⟩

/-! ## The discovery and sharing handlers (src/backend.py) -/

/-- The `REPL` generic-success message type. -/
def REPLY : Str := pstr "REPL"

/-- The `ERRO` generic-error message type. -/
def ERROR : Str := pstr "ERRO"

/--
`MyPeer.__handleInsertPeer(peerConn, data)` (src/backend.py lines 59-91),
returning the list of `(type, payload)` frames sent on the connection and
the state after handling.  Any exception inside the inner `try` (a failed
three-way unpack of `data.split()`, the `assert` in `maxPeersReached`, or
`int(port)` inside `addPeer`) is caught and answered with
`ERRO "Join: incorrect arguments"`.
-/
def handleInsertPeer (st : PeerState) (data : Str) :
    List (Str × Str) × PeerState :=
  match pySplit data with
  | [peerid, host, port] =>
    match maxPeersReached st with
    | .error _ => ([(ERROR, pstr "Join: incorrect arguments")], st)
    | .ok true => ([(ERROR, pstr "Join: too many peers")], st)
    | .ok false =>
      if peerid ∉ keys st.peers ∧ peerid ≠ st.myId then
        match addPeer st peerid host port with
        | .ok (_, st') => ([(REPLY, pstr "Join: peer added: " ++ peerid)], st')
        | .error _ => ([(ERROR, pstr "Join: incorrect arguments")], st)
      else
        ([(ERROR, pstr "Join: peer already inserted " ++ peerid)], st)
  | _ => ([(ERROR, pstr "Join: incorrect arguments")], st)

/-- Outcome of `MyPeer.__handleQuery`: the frames sent back, the worker
thread started for `__processQuery` (if any) with its `(peerid, key, ttl)`
arguments, and whether an exception escaped the handler. -/
structure HQResult where
  sent : List (Str × Str)
  task : Option (Str × Str × Int)
  raised : Bool
  deriving DecidableEq, Repr

/--
`MyPeer.__handleQuery(peerConn, data)` (src/backend.py lines 110-129).
The `try` block covers only the unpack of `data.split()` and the ack reply;
the `threading.Thread(...)` construction sits after it, so:
with three tokens and a numeric ttl a worker task is started; with three
tokens and a non-numeric ttl the ack is sent and `int(ttl)` raises a
`ValueError` that escapes the handler; with any other token count the
`ERRO` reply is sent and the unbound `peerid` in the thread's argument
list raises a `NameError` that escapes the handler.  Node state is never
touched.
-/
def handleQuery (data : Str) : HQResult :=
  match pySplit data with
  | [peerid, key, ttl] =>
    match pyInt ttl with
    | some t => ⟨[(REPLY, pstr "Query ACK: " ++ key)], some (peerid, key, t), false⟩
    | none => ⟨[(REPLY, pstr "Query ACK: " ++ key)], none, true⟩
  | _ => ⟨[(ERROR, pstr "Query: incorrect arguments")], none, true⟩

/-- A message sent out over a fresh outbound connection by the query worker. -/
inductive Emit where
  /-- `connectAndSend(host, port, QRESPONSE, data, pid=origin)`. -/
  | qresponse (host : Str) (port : Int) (data : Str)
  /-- A `QUER` frame forwarded to the known neighbor `pid` at `host:port`. -/
  | query (pid : Str) (host : Str) (port : Int) (data : Str)
  deriving DecidableEq, Repr

/-- `MyPeer.__router(peerid)` (src/backend.py lines 51-57): route only to a
directly known peer, returning its stored `(host, port)`. -/
def routerLookup (st : PeerState) (pid : Str) : Option (Str × Int) :=
  (st.peers.find? (fun e => decide (e.1 = pid))).map (·.2)

/-- `Peer.sendToPeer(peerid, msgtype, msgdata)` (src/peer.py lines 205-228)
as used by the query worker: unroutable targets (unknown id, or the falsy
empty id) send nothing; otherwise one frame goes to the routed address. -/
def sendToPeer (st : PeerState) (pid : Str) (msgdata : Str) : List Emit :=
  match routerLookup st pid with
  | some (host, port) => if pid = [] then [] else [.query pid host port msgdata]
  | none => []

/-- The owner reported in a QRESPONSE: Python's `if not fpeerid` replaces a
falsy owner (the `None` local sentinel, or an empty string) by `myId`. -/
def resolveOwner (myId : Str) : Option Str → Str
  | none => myId
  | some p => if p = [] then myId else p

/--
`MyPeer.__processQuery(peerid, key, ttl)` (src/backend.py lines 133-156),
as the list of messages it emits.  The first filename containing `key`
wins and is answered with a single QRESPONSE sent directly to the origin's
address `host:port` parsed out of `peerid`; if that parse (`peerid.split(':')`
into two pieces, then `int(port)`) fails, the exception kills the worker
thread and nothing is emitted.  Without a match and with a positive ttl the
query is re-sent to every known neighbor with ttl decremented.
-/
def processQuery (st : PeerState) (peerid key : Str) (ttl : Int) : List Emit :=
  match st.files.find? (fun e => pyInStr key e.1) with
  | some fm =>
    let fpeerid := resolveOwner st.myId fm.2
    match splitOnChar ':' peerid with
    | [host, port] =>
      match pyInt port with
      | some pn => [.qresponse host pn (fm.1 ++ [' '] ++ fpeerid)]
      | none => []
    | _ => []
  | none =>
    if ttl > 0 then
      let msgdata := peerid ++ [' '] ++ key ++ [' '] ++ intStr (ttl - 1)
      ((keys st.peers).map (fun pid => sendToPeer st pid msgdata)).flatten
    else []

/--
`MyPeer.__handleQResponse(peerConn, data)` (src/backend.py lines 158-173),
restricted to its effect on the file index: a two-token payload records a
new filename, a duplicate filename is logged and dropped, and any other
token count raises inside the `try` and is swallowed.
-/
def handleQResponse (files : List (Str × Option Str)) (data : Str) :
    List (Str × Option Str) :=
  match pySplit data with
  | [fname, fpeerid] =>
    if fname ∈ keys files then files else files ++ [(fname, some fpeerid)]
  | _ => files

/-- `MyPeer.addLocalFile(filename)` (src/backend.py lines 267-270):
`self.files[filename] = None`, an unconditional dict assignment. -/
def addLocalFile (files : List (Str × Option Str)) (filename : Str) :
    List (Str × Option Str) :=
  dictSet files filename none

/-! ## The wire-protocol codec (class `PeerConnection`, src/peer.py)

Byte strings are `List Nat` with entries below 256; Python strings passed to
the codec are `List Nat` of Unicode code points (`str.encode()` /
`bytes.decode()` are strict UTF-8). -/

/-- UTF-8 encoding of one Unicode scalar value. -/
def utf8EncodeChar (c : Nat) : List Nat :=
  if c < 0x80 then [c]
  else if c < 0x800 then [0xC0 + c / 0x40, 0x80 + c % 0x40]
  else if c < 0x10000 then
    [0xE0 + c / 0x1000, 0x80 + c / 0x40 % 0x40, 0x80 + c % 0x40]
  else
    [0xF0 + c / 0x40000, 0x80 + c / 0x1000 % 0x40,
     0x80 + c / 0x40 % 0x40, 0x80 + c % 0x40]

/-- Python `s.encode()`: UTF-8 bytes of a string of code points. -/
def utf8Str (s : List Nat) : List Nat := (s.map utf8EncodeChar).flatten

/-- A byte continues a multi-byte UTF-8 sequence. -/
def isCont (b : Nat) : Bool := 0x80 ≤ b && b < 0xC0

/--
Python `bytes.decode()` (strict UTF-8): `none` models the
`UnicodeDecodeError` raised on a malformed, truncated, overlong or
surrogate-encoding byte sequence.  The fuel argument only bounds the
recursion; `utf8Decode` supplies `bs.length`, which every step stays below
(each step consumes at least one byte), so the fuel-exhaustion branch is
unreachable.
-/
def utf8DecodeAux : Nat → List Nat → Option (List Nat)
  | _, [] => some []
  | 0, _ :: _ => none
  | fuel + 1, b :: rest =>
    if b < 0x80 then (utf8DecodeAux fuel rest).map (b :: ·)
    else if b < 0xC0 then none
    else if b < 0xE0 then
      match rest with
      | b1 :: rest2 =>
        if isCont b1 && 0x80 ≤ (b - 0xC0) * 0x40 + (b1 - 0x80) then
          (utf8DecodeAux fuel rest2).map (((b - 0xC0) * 0x40 + (b1 - 0x80)) :: ·)
        else none
      | [] => none
    else if b < 0xF0 then
      match rest with
      | b1 :: b2 :: rest3 =>
        if isCont b1 && isCont b2 &&
            0x800 ≤ (b - 0xE0) * 0x1000 + (b1 - 0x80) * 0x40 + (b2 - 0x80) &&
            ¬(0xD800 ≤ (b - 0xE0) * 0x1000 + (b1 - 0x80) * 0x40 + (b2 - 0x80) &&
              (b - 0xE0) * 0x1000 + (b1 - 0x80) * 0x40 + (b2 - 0x80) < 0xE000) then
          (utf8DecodeAux fuel rest3).map
            (((b - 0xE0) * 0x1000 + (b1 - 0x80) * 0x40 + (b2 - 0x80)) :: ·)
        else none
      | _ => none
    else if b < 0xF8 then
      match rest with
      | b1 :: b2 :: b3 :: rest4 =>
        if isCont b1 && isCont b2 && isCont b3 &&
            0x10000 ≤ (b - 0xF0) * 0x40000 + (b1 - 0x80) * 0x1000 +
              (b2 - 0x80) * 0x40 + (b3 - 0x80) &&
            (b - 0xF0) * 0x40000 + (b1 - 0x80) * 0x1000 +
              (b2 - 0x80) * 0x40 + (b3 - 0x80) < 0x110000 then
          (utf8DecodeAux fuel rest4).map
            (((b - 0xF0) * 0x40000 + (b1 - 0x80) * 0x1000 +
              (b2 - 0x80) * 0x40 + (b3 - 0x80)) :: ·)
        else none
      | _ => none
    else none

/-- Python `bytes.decode()` on a byte string. -/
def utf8Decode (bs : List Nat) : Option (List Nat) := utf8DecodeAux bs.length bs

/-- `struct.pack` of an `Ns` field: truncate to `n` bytes or NUL-pad. -/
def packBytes (n : Nat) (bs : List Nat) : List Nat :=
  bs.take n ++ List.replicate (n - bs.length) 0

/-- `struct.pack("!L", n)`: four bytes, big-endian. -/
def be32 (n : Nat) : List Nat :=
  [n / 0x1000000 % 0x100, n / 0x10000 % 0x100, n / 0x100 % 0x100, n % 0x100]

/-- `struct.unpack("!L", bs)` value of a four-byte string. -/
def be32val (bs : List Nat) : Nat := bs.foldl (fun a b => a * 0x100 + b) 0

/--
`PeerConnection.__makemsg(msgtype, msgdata)` (src/peer.py lines 342-346):
`struct.pack(f"!4sL{msglen}s", msgtype.encode(), msglen, msgdata.encode())`
with `msglen = len(msgdata)` — the CHARACTER count of the payload, which
also truncates (or pads) the encoded payload BYTES to that count.  `none`
models the `struct.error` raised when the length does not fit in an
unsigned 32-bit field.
-/
def makemsg (msgtype msgdata : List Nat) : Option (List Nat) :=
  let msglen := msgdata.length
  if msglen < 2 ^ 32 then
    some (packBytes 4 (utf8Str msgtype) ++ be32 msglen ++
      packBytes msglen (utf8Str msgdata))
  else none

/--
The `while len(msg) != msglen` read loop of `recvData` (src/peer.py lines
390-395): read up to `min(2048, msglen - len(msg))` further bytes, decode
the chunk on its own, and accumulate the decoded characters; an empty read
breaks out and the short message is discarded.  Every pass consumes at
least one byte of the stream, so fuel `rest.length + 1` never runs out.
-/
def readLoop : Nat → List Nat → Nat → List Nat → Option (List Nat)
  | 0, _, _, _ => none
  | fuel + 1, rest, msglen, acc =>
    if acc.length = msglen then some acc
    else if (rest.take (min 2048 (msglen - acc.length))).isEmpty then none
    else
      match utf8Decode (rest.take (min 2048 (msglen - acc.length))) with
      | none => none
      | some dec =>
        readLoop fuel (rest.drop (min 2048 (msglen - acc.length))) msglen (acc ++ dec)

/--
`PeerConnection.recvData()` (src/peer.py lines 372-407) applied to the byte
stream the sender wrote: read 4 bytes and decode them as the type, read a
4-byte big-endian length, then run the chunked payload loop; any decode or
unpack failure, an empty type, or a short payload yields `(None, None)`,
modelled as `none`.
-/
def recvData (stream : List Nat) : Option (List Nat × List Nat) :=
  match utf8Decode (stream.take 4) with
  | none => none
  | some ty =>
    if ty = [] then none
    else
      let lenstr := (stream.drop 4).take 4
      if lenstr.length = 4 then
        let rest := stream.drop 8
        match readLoop (rest.length + 1) rest (be32val lenstr) [] with
        | none => none
        | some msg => some (ty, msg)
      else none

/-! ## Helper lemmas -/

theorem dictSet_not_mem {α : Type} (l : List (Str × α)) (k : Str) (v : α)
    (h : k ∉ keys l) : dictSet l k v = l ++ [(k, v)] := by
  simp [dictSet, h]

theorem mem_keys_dictSet {α : Type} (l : List (Str × α)) (k : Str) (v : α) :
    k ∈ keys (dictSet l k v) := by
  by_cases hmem : k ∈ keys l
  · rw [dictSet, if_pos hmem]
    obtain ⟨e, he, h1⟩ := List.mem_map.mp hmem
    refine List.mem_map.mpr ⟨(k, v), List.mem_map.mpr ⟨e, he, ?_⟩, rfl⟩
    simp [h1]
  · rw [dictSet_not_mem l k v hmem]
    unfold keys
    exact List.mem_map.mpr ⟨(k, v), List.mem_append_right _ (by simp), rfl⟩

theorem addStep_maxPeers (st : PeerState) (op : Str × Str × Str) :
    (addStep st op).maxPeers = st.maxPeers := by
  unfold addStep addPeer
  by_cases hc : op.1 ∉ keys st.peers ∧ (st.maxPeers = 0 ∨ st.peers.length < st.maxPeers)
  · rw [if_pos hc]
    cases hp : pyInt op.2.2 <;> simp
  · rw [if_neg hc]

theorem addStep_length (st : PeerState) (op : Str × Str × Str)
    (h0 : 0 < st.maxPeers) (h : st.peers.length ≤ st.maxPeers) :
    (addStep st op).peers.length ≤ st.maxPeers := by
  unfold addStep addPeer
  by_cases hc : op.1 ∉ keys st.peers ∧ (st.maxPeers = 0 ∨ st.peers.length < st.maxPeers)
  · rw [if_pos hc]
    cases hp : pyInt op.2.2 with
    | none => simpa using h
    | some p =>
      simp only []
      rw [dictSet_not_mem _ _ _ hc.1]
      simp only [List.length_append, List.length_singleton]
      rcases hc.2 with h2 | h2
      · omega
      · omega
  · rw [if_neg hc]
    exact h

theorem runAdds_inv (ops : List (Str × Str × Str)) :
    ∀ st : PeerState, 0 < st.maxPeers → st.peers.length ≤ st.maxPeers →
      (runAdds st ops).maxPeers = st.maxPeers ∧
      (runAdds st ops).peers.length ≤ st.maxPeers := by
  induction ops with
  | nil => intro st _ h; exact ⟨rfl, h⟩
  | cons op rest ih =>
    intro st h0 hlen
    have hm := addStep_maxPeers st op
    have hl := addStep_length st op h0 hlen
    have hrec := ih (addStep st op) (by omega) (by omega)
    refine ⟨?_, ?_⟩
    · show (runAdds (addStep st op) rest).maxPeers = st.maxPeers
      omega
    · show (runAdds (addStep st op) rest).peers.length ≤ st.maxPeers
      omega

/-! ## The claims -/

/--
C10: every call to `removePeerAt(loc)` raises (`self.removePeer(self, loc)`
passes two positional arguments to a one-argument method, a `TypeError`),
for every node state and every `loc`, so the positional-removal operation
never removes a directory entry and leaves the directory unchanged.
-/
theorem c10_removePeerAt_raises (st : PeerState) (loc : Str) :
    removePeerAt st loc = .error .typeError := rfl

/--
C9: `maxPeersReached` returns `false` whenever the configured capacity is 0,
no matter how many entries the directory holds; for a positive capacity (and
a directory satisfying the asserted invariant `count ≤ capacity`) it returns
`true` exactly when the entry count equals the capacity.
-/
theorem c9_capacity_sentinel (st : PeerState) :
    (st.maxPeers = 0 → maxPeersReached st = .ok false) ∧
    (0 < st.maxPeers → st.peers.length ≤ st.maxPeers →
      (maxPeersReached st = .ok true ↔ st.peers.length = st.maxPeers)) := by
  constructor
  · intro h0
    unfold maxPeersReached
    rw [if_pos (Or.inl h0)]
    simp [h0]
  · intro hpos hle
    unfold maxPeersReached
    rw [if_pos (Or.inr hle)]
    simp [hpos]

/-- C9 witness: a capacity-0 node with three entries reports `false`; a
capacity-2 node with two entries reports `true`. -/
theorem c9_capacity_sentinel_witness :
    maxPeersReached ⟨0, pstr "n", [(pstr "a", pstr "h", 1), (pstr "b", pstr "h", 2),
      (pstr "c", pstr "h", 3)], []⟩ = .ok false ∧
    maxPeersReached ⟨2, pstr "n", [(pstr "a", pstr "h", 1), (pstr "b", pstr "h", 2)],
      []⟩ = .ok true := by
  constructor
  · exact (c9_capacity_sentinel _).1 rfl
  · exact ((c9_capacity_sentinel _).2 (by decide) (by decide)).mpr (by decide)

/--
C2: for every capacity `C > 0`, any sequence of `addPeer` attempts starting
from a fresh node keeps the directory size at most `C`, and `addPeer`
returns `false` and inserts nothing whenever the directory already holds
`C` entries.
-/
theorem c2_capacity_invariant (C : Nat) (hC : 0 < C) (myId : Str)
    (ops : List (Str × Str × Str)) :
    (runAdds (initState C myId) ops).peers.length ≤ C ∧
    ∀ st id host port, st.maxPeers = C → st.peers.length = C →
      addPeer st id host port = .ok (false, st) := by
  constructor
  · exact (runAdds_inv ops (initState C myId) hC (by simp [initState])).2
  · intro st id host port hmax hlen
    unfold addPeer
    rw [if_neg]
    rintro ⟨_, h2 | h2⟩ <;> omega

/-- C2 witness: a capacity-1 node keeps a single entry across a run of four
add attempts, and an add at capacity returns `false` without change. -/
theorem c2_capacity_invariant_witness :
    (runAdds (initState 1 (pstr "n"))
      [(pstr "a", pstr "h", pstr "1"), (pstr "b", pstr "h", pstr "2"),
       (pstr "a", pstr "h", pstr "3"), (pstr "c", pstr "h", pstr "4")]).peers.length ≤ 1 ∧
    addPeer ⟨1, pstr "n", [(pstr "a", pstr "h", 1)], []⟩ (pstr "b") (pstr "h") (pstr "2") =
      .ok (false, ⟨1, pstr "n", [(pstr "a", pstr "h", 1)], []⟩) := by
  refine ⟨(c2_capacity_invariant 1 (by decide) (pstr "n") _).1, ?_⟩
  exact (c2_capacity_invariant 1 (by decide) (pstr "n") []).2 _ _ _ _ rfl rfl

/--
C3 counterexample: `addPeer` does NOT reject the node's own id.  On a fresh
capacity-1 node named `n1`, `addPeer("n1", "h", "9")` returns `true` and
inserts the node's own id, where the claim requires `false` and no change.
-/
theorem c3_add_self_counterexample :
    (initState 1 (pstr "n1")).myId = pstr "n1" ∧
    addPeer (initState 1 (pstr "n1")) (pstr "n1") (pstr "h") (pstr "9") =
      .ok (true, ⟨1, pstr "n1", [(pstr "n1", pstr "h", 9)], []⟩) := by
  constructor
  · rfl
  · rfl

/--
C3 (amended): `addPeer(id, host, port)` returns `false` when the capacity is
reached or `id` is already a key — the node's own id is NOT rejected here
(that check lives in the JOIN handler) — and in every `false` case the
directory is unchanged; moreover after any `addPeer` of `id`, a second
`addPeer` of the same `id` returns `false` and leaves the state exactly as
it was, so it never grows the directory and never replaces the first record.
-/
theorem c3_add_contract_amended (st : PeerState) (id host port host2 port2 : Str) :
    (id ∈ keys st.peers ∨ (st.maxPeers ≠ 0 ∧ st.maxPeers ≤ st.peers.length) →
      addPeer st id host port = .ok (false, st)) ∧
    (∀ b st', addPeer st id host port = .ok (b, st') →
      addPeer st' id host2 port2 = .ok (false, st')) := by
  constructor
  · intro h
    unfold addPeer
    rw [if_neg]
    rintro ⟨h1, h2 | h2⟩
    · rcases h with h | ⟨h3, _⟩
      · exact h1 h
      · exact h3 h2
    · rcases h with h | ⟨_, h4⟩
      · exact h1 h
      · omega
  · intro b st' hadd
    unfold addPeer at hadd ⊢
    by_cases hc : id ∉ keys st.peers ∧ (st.maxPeers = 0 ∨ st.peers.length < st.maxPeers)
    · rw [if_pos hc] at hadd
      cases hp : pyInt port with
      | none => rw [hp] at hadd; cases hadd
      | some p =>
        rw [hp] at hadd
        injection hadd with hpair
        have hst : st' = { st with peers := dictSet st.peers id (host, p) } :=
          (congrArg Prod.snd hpair).symm
        subst hst
        rw [if_neg]
        rintro ⟨hh1, _⟩
        exact hh1 (mem_keys_dictSet st.peers id (host, p))
    · rw [if_neg hc] at hadd
      injection hadd with hpair
      have hst : st' = st := (congrArg Prod.snd hpair).symm
      subst hst
      rw [if_neg hc]

/-- C3 witness for the amended contract: a second add of the same id fails
and changes nothing, and an add at capacity fails and changes nothing. -/
theorem c3_add_contract_amended_witness :
    addPeer ⟨2, pstr "n", [(pstr "a", pstr "h", 1)], []⟩ (pstr "a") (pstr "g") (pstr "2") =
      .ok (false, ⟨2, pstr "n", [(pstr "a", pstr "h", 1)], []⟩) ∧
    addPeer ⟨1, pstr "n", [(pstr "a", pstr "h", 1)], []⟩ (pstr "b") (pstr "g") (pstr "2") =
      .ok (false, ⟨1, pstr "n", [(pstr "a", pstr "h", 1)], []⟩) := by
  constructor
  · exact (c3_add_contract_amended ⟨2, pstr "n", [(pstr "a", pstr "h", 1)], []⟩
      (pstr "a") (pstr "g") (pstr "2") (pstr "g") (pstr "2")).1 (Or.inl (by decide))
  · exact (c3_add_contract_amended ⟨1, pstr "n", [(pstr "a", pstr "h", 1)], []⟩
      (pstr "b") (pstr "g") (pstr "2") (pstr "g") (pstr "2")).1 (Or.inr (by decide))

/--
C4: a JOIN request arriving at a node whose directory is at its capacity
limit is answered with exactly one `ERRO` frame (whatever the payload), and
the node state — key set and every stored record — is identical afterwards.
-/
theorem c4_join_at_capacity (st : PeerState) (data : Str)
    (h1 : 0 < st.maxPeers) (h2 : st.peers.length = st.maxPeers) :
    (handleInsertPeer st data).2 = st ∧
    ∃ r, (handleInsertPeer st data).1 = [(ERROR, r)] := by
  have hmax : maxPeersReached st = .ok true := by
    unfold maxPeersReached
    rw [if_pos (Or.inr (le_of_eq h2))]
    simp [h1, h2]
  unfold handleInsertPeer
  rcases hsp : pySplit data with _ | ⟨a, _ | ⟨b, _ | ⟨c, _ | ⟨d, t⟩⟩⟩⟩
  · exact ⟨rfl, _, rfl⟩
  · exact ⟨rfl, _, rfl⟩
  · exact ⟨rfl, _, rfl⟩
  · rw [hmax]
    exact ⟨rfl, _, rfl⟩
  · exact ⟨rfl, _, rfl⟩

/-- C4 witness: a capacity-1 node with one entry answers a well-formed JOIN
with `ERRO` and keeps its directory intact. -/
theorem c4_join_at_capacity_witness :
    (handleInsertPeer ⟨1, pstr "n", [(pstr "a", pstr "h", 1)], []⟩
      (pstr "b g 2")).2 = ⟨1, pstr "n", [(pstr "a", pstr "h", 1)], []⟩ ∧
    ∃ r, (handleInsertPeer ⟨1, pstr "n", [(pstr "a", pstr "h", 1)], []⟩
      (pstr "b g 2")).1 = [(ERROR, r)] :=
  c4_join_at_capacity ⟨1, pstr "n", [(pstr "a", pstr "h", 1)], []⟩
    (pstr "b g 2") (by decide) (by decide)

/--
C7: evaluation at the failing input.  For the malformed QUER payload `"x"`
the handler does send one `ERRO` frame and starts no worker task, but the
`threading.Thread(...)` line after the `try` block references the unbound
`peerid`, so a `NameError` escapes `__handleQuery` (`raised = true`),
contradicting the claim that no exception escapes the handler.
-/
theorem c7_malformed_query_bug :
    handleQuery (pstr "x") =
      ⟨[(ERROR, pstr "Query: incorrect arguments")], none, true⟩ := by
  rfl

/--
C8 counterexample: `addLocalFile` overwrites an existing owner.  With
`"report.txt"` indexed as owned by peer `p1`, local registration of the same
name re-maps it to the local sentinel, so the recorded owner changes,
contradicting "no subsequent operation ever changes the owner".
-/
theorem c8_overwrite_counterexample :
    dictFind [(pstr "report.txt", some (pstr "p1"))] (pstr "report.txt") =
      some (some (pstr "p1")) ∧
    dictFind (addLocalFile [(pstr "report.txt", some (pstr "p1"))]
      (pstr "report.txt")) (pstr "report.txt") = some none := by
  constructor
  · rfl
  · rfl

theorem keys_tail_mem {α : Type} {x : Str × α} {t : List (Str × α)} {k : Str}
    (h : k ∈ keys (x :: t)) (hx : ¬ x.1 = k) : k ∈ keys t := by
  rcases List.mem_map.mp h with ⟨y, hy, hk⟩
  rcases List.mem_cons.mp hy with rfl | hyt
  · exact absurd hk hx
  · exact List.mem_map.mpr ⟨y, hyt, hk⟩

theorem dictFind_cons_of_eq {α : Type} (e : Str × α) (l : List (Str × α))
    (k : Str) (h : e.1 = k) : dictFind (e :: l) k = some e.2 := by
  unfold dictFind
  rw [List.find?_cons]
  have hb : decide (e.1 = k) = true := by simp [h]
  rw [hb]
  rfl

theorem dictFind_cons_of_ne {α : Type} (e : Str × α) (l : List (Str × α))
    (k : Str) (h : ¬ e.1 = k) : dictFind (e :: l) k = dictFind l k := by
  unfold dictFind
  rw [List.find?_cons]
  have hb : decide (e.1 = k) = false := by simp [h]
  rw [hb]

theorem dictFind_append_left {α : Type} :
    ∀ (l : List (Str × α)) (l' : List (Str × α)) (k : Str),
      k ∈ keys l → dictFind (l ++ l') k = dictFind l k := by
  intro l
  induction l with
  | nil => intro l' k h; simp [keys] at h
  | cons e t ih =>
    intro l' k h
    by_cases he : e.1 = k
    · rw [List.cons_append, dictFind_cons_of_eq e _ k he, dictFind_cons_of_eq e t k he]
    · rw [List.cons_append, dictFind_cons_of_ne e _ k he, dictFind_cons_of_ne e t k he]
      exact ih l' k (keys_tail_mem h he)

theorem dictFind_dictSet {α : Type} :
    ∀ (l : List (Str × α)) (k : Str) (v : α), dictFind (dictSet l k v) k = some v := by
  have habsent : ∀ (l : List (Str × α)) (k : Str) (v : α), k ∉ keys l →
      dictFind (l ++ [(k, v)]) k = some v := by
    intro l
    induction l with
    | nil => intro k v _; rw [List.nil_append, dictFind_cons_of_eq (k, v) [] k rfl]
    | cons x t ih =>
      intro k v h
      have hx : ¬ x.1 = k := fun hk => h (List.mem_map.mpr ⟨x, List.mem_cons_self x t, hk⟩)
      have ht : k ∉ keys t := fun hm => h (List.mem_cons_of_mem _ hm)
      rw [List.cons_append, dictFind_cons_of_ne x _ k hx]
      exact ih k v ht
  have hupdate : ∀ (l : List (Str × α)) (k : Str) (v : α), k ∈ keys l →
      dictFind (l.map (fun e => if e.1 = k then (k, v) else e)) k = some v := by
    intro l
    induction l with
    | nil => intro k v h; simp [keys] at h
    | cons x t ih =>
      intro k v h
      by_cases hx : x.1 = k
      · rw [List.map_cons, if_pos hx, dictFind_cons_of_eq (k, v) _ k rfl]
      · rw [List.map_cons, if_neg hx, dictFind_cons_of_ne x _ k hx]
        exact ih k v (keys_tail_mem h hx)
  intro l k v
  by_cases hmem : k ∈ keys l
  · rw [dictSet, if_pos hmem]
    exact hupdate l k v hmem
  · rw [dictSet_not_mem l k v hmem]
    exact habsent l k v hmem

/--
C8 (amended): once a filename is a key of the file index, handling a RESP
message never changes the owner recorded for it — a RESP for an
already-indexed filename leaves the index exactly unchanged — but local
registration of an indexed name does overwrite its owner with the local
sentinel (`files[filename] = None` is unconditional).
-/
theorem c8_first_write_amended (files : List (Str × Option Str)) (data name : Str) :
    (∀ f, f ∈ keys files → dictFind (handleQResponse files data) f = dictFind files f) ∧
    (∀ f p, pySplit data = [f, p] → f ∈ keys files → handleQResponse files data = files) ∧
    (name ∈ keys files → dictFind (addLocalFile files name) name = some none) := by
  refine ⟨?_, ?_, ?_⟩
  · intro f hf
    rcases hsp : pySplit data with _ | ⟨a, _ | ⟨b, _ | ⟨c, t⟩⟩⟩
    · simp only [handleQResponse, hsp]
    · simp only [handleQResponse, hsp]
    · simp only [handleQResponse, hsp]
      by_cases hmem : a ∈ keys files
      · rw [if_pos hmem]
      · rw [if_neg hmem]
        exact dictFind_append_left files [(a, some b)] f hf
    · simp only [handleQResponse, hsp]
  · intro f p hsp hmem
    simp only [handleQResponse, hsp]
    rw [if_pos hmem]
  · intro _
    exact dictFind_dictSet files name none

/-- C8 witness for the amended statement, on a one-entry index: a duplicate
RESP is dropped and local registration overwrites the owner. -/
theorem c8_first_write_amended_witness :
    dictFind (handleQResponse [(pstr "a", some (pstr "p"))] (pstr "a q")) (pstr "a") =
      dictFind [(pstr "a", some (pstr "p"))] (pstr "a") ∧
    handleQResponse [(pstr "a", some (pstr "p"))] (pstr "a q") =
      [(pstr "a", some (pstr "p"))] ∧
    dictFind (addLocalFile [(pstr "a", some (pstr "p"))] (pstr "a")) (pstr "a") =
      some none := by
  refine ⟨?_, ?_, ?_⟩
  · exact (c8_first_write_amended [(pstr "a", some (pstr "p"))] (pstr "a q")
      (pstr "a")).1 (pstr "a") (by decide)
  · exact (c8_first_write_amended [(pstr "a", some (pstr "p"))] (pstr "a q")
      (pstr "a")).2.1 (pstr "a") (pstr "q") (by decide) (by decide)
  · exact (c8_first_write_amended [(pstr "a", some (pstr "p"))] (pstr "a q")
      (pstr "a")).2.2 (by decide)

/--
C5 counterexample: a node holding a match emits NO QRESPONSE when the
query's origin id is not of the `host:port` form — `peerid.split(':')`
yields one piece, the two-way unpack raises in the worker thread, and
nothing is sent — where the claim requires exactly one QRESPONSE for every
such query.
-/
theorem c5_first_match_counterexample :
    pyInStr (pstr "report") (pstr "report.txt") = true ∧
    processQuery ⟨2, pstr "10.0.0.1:9000", [], [(pstr "report.txt", none)]⟩
      (pstr "abc") (pstr "report") 5 = [] := by
  constructor
  · rfl
  · rfl

/--
C5 (amended): for every query whose origin id has the `host:port` shape
(one colon, integer port) processed by a node whose file index holds at
least one filename containing the key, the worker emits exactly one
message: a QRESPONSE to that address naming the first matching filename in
the index's iteration order — in particular no QUERY is forwarded.
-/
theorem c5_first_match_amended (st : PeerState) (peerid key : Str) (ttl : Int)
    (host port : Str) (pn : Int)
    (hsplit : splitOnChar ':' peerid = [host, port])
    (hport : pyInt port = some pn)
    (hm : (st.files.find? (fun e => pyInStr key e.1)).isSome) :
    ∃ fm, st.files.find? (fun e => pyInStr key e.1) = some fm ∧
      processQuery st peerid key ttl =
        [.qresponse host pn (fm.1 ++ [' '] ++ resolveOwner st.myId fm.2)] := by
  obtain ⟨fm, hfm⟩ := Option.isSome_iff_exists.mp hm
  refine ⟨fm, hfm, ?_⟩
  simp only [processQuery, hfm, hsplit, hport]

/-- C5 witness: a well-formed origin `1.2.3.4:9000` receives exactly one
QRESPONSE naming the first matching filename. -/
theorem c5_first_match_amended_witness :
    ∃ fm, ([(pstr "notes.txt", none), (pstr "report.txt", some (pstr "p2"))] :
        List (Str × Option Str)).find?
        (fun e => pyInStr (pstr "t.txt") e.1) = some fm ∧
      processQuery ⟨2, pstr "n1", [], [(pstr "notes.txt", none),
          (pstr "report.txt", some (pstr "p2"))]⟩
        (pstr "1.2.3.4:9000") (pstr "t.txt") 4 =
        [.qresponse (pstr "1.2.3.4") 9000
          (fm.1 ++ [' '] ++ resolveOwner (pstr "n1") fm.2)] :=
  c5_first_match_amended ⟨2, pstr "n1", [], [(pstr "notes.txt", none),
      (pstr "report.txt", some (pstr "p2"))]⟩
    (pstr "1.2.3.4:9000") (pstr "t.txt") 4 (pstr "1.2.3.4") (pstr "9000") 9000
    (by decide) (by decide) (by decide)

theorem findKey_of_nodup :
    ∀ (l : List (Str × Str × Int)), (keys l).Nodup →
      ∀ e ∈ l, l.find? (fun x => decide (x.1 = e.1)) = some e := by
  intro l
  induction l with
  | nil => intro _ e he; cases he
  | cons a t ih =>
    intro hnd e he
    have hnd0 : (a.1 :: keys t).Nodup := hnd
    have hnd' : (keys t).Nodup ∧ a.1 ∉ keys t :=
      ⟨(List.nodup_cons.mp hnd0).2, (List.nodup_cons.mp hnd0).1⟩
    rcases List.mem_cons.mp he with rfl | ht
    · rw [List.find?_cons]
      have hb : decide (e.1 = e.1) = true := by simp
      rw [hb]
    · have hne : ¬ a.1 = e.1 := by
        intro h
        exact hnd'.2 (h ▸ List.mem_map.mpr ⟨e, ht, rfl⟩)
      rw [List.find?_cons]
      have hb : decide (a.1 = e.1) = false := by simp [hne]
      rw [hb]
      exact ih hnd'.1 e ht

theorem flood_emits (st : PeerState) (m : Str)
    (hnd : (keys st.peers).Nodup) (hne : ∀ e ∈ st.peers, e.1 ≠ []) :
    ((keys st.peers).map (fun pid => sendToPeer st pid m)).flatten =
      st.peers.map (fun e => Emit.query e.1 e.2.1 e.2.2 m) := by
  suffices h : ∀ l : List (Str × Str × Int), (∀ e ∈ l, e ∈ st.peers) →
      ((keys l).map (fun pid => sendToPeer st pid m)).flatten =
        l.map (fun e => Emit.query e.1 e.2.1 e.2.2 m) by
    exact h st.peers (fun e he => he)
  intro l hl
  induction l with
  | nil => rfl
  | cons e t ih =>
    have he : e ∈ st.peers := hl e (List.mem_cons_self e t)
    have hsend : sendToPeer st e.1 m = [.query e.1 e.2.1 e.2.2 m] := by
      unfold sendToPeer routerLookup
      rw [findKey_of_nodup st.peers hnd e he]
      simp [hne e he]
    have hrec := ih (fun x hx => hl x (List.mem_cons_of_mem _ hx))
    simp only [keys, List.map_cons, List.flatten_cons, hsend] at hrec ⊢
    rw [hrec]
    rfl

/--
C6: a node processing query `(originId, key, ttl)` with no matching filename
forwards, when `ttl > 0`, exactly one QUERY carrying
`(originId, key, ttl - 1)` to every currently known neighbor (in directory
order), and sends no QUERY at all when `ttl = 0` — so a query travels at
most its initial TTL hops.  (The directory is assumed well formed: distinct,
nonempty peer ids, as every insertion path guarantees.)
-/
theorem c6_ttl_flooding (st : PeerState) (peerid key : Str) (ttl : Int)
    (hnm : ∀ e ∈ st.files, pyInStr key e.1 = false)
    (hnd : (keys st.peers).Nodup)
    (hne : ∀ e ∈ st.peers, e.1 ≠ []) :
    (0 < ttl → processQuery st peerid key ttl =
      st.peers.map (fun e => Emit.query e.1 e.2.1 e.2.2
        (peerid ++ [' '] ++ key ++ [' '] ++ intStr (ttl - 1)))) ∧
    (ttl = 0 → processQuery st peerid key ttl = []) := by
  have hnone : st.files.find? (fun e => pyInStr key e.1) = none :=
    List.find?_eq_none.mpr (fun e he => by simp [hnm e he])
  constructor
  · intro hpos
    simp only [processQuery, hnone]
    rw [if_pos (by omega)]
    exact flood_emits st _ hnd hne
  · intro h0
    simp only [processQuery, hnone]
    rw [if_neg (by omega)]

/-- C6 witness: with two neighbors and no matching file, ttl 3 floods one
QUERY per neighbor carrying ttl 2, and ttl 0 floods nothing. -/
theorem c6_ttl_flooding_witness :
    processQuery ⟨0, pstr "n", [(pstr "a", pstr "h1", 1), (pstr "b", pstr "h2", 2)],
        [(pstr "notes.txt", none)]⟩ (pstr "o:1") (pstr "zip") 3 =
      [Emit.query (pstr "a") (pstr "h1") 1 (pstr "o:1 zip 2"),
       Emit.query (pstr "b") (pstr "h2") 2 (pstr "o:1 zip 2")] ∧
    processQuery ⟨0, pstr "n", [(pstr "a", pstr "h1", 1), (pstr "b", pstr "h2", 2)],
        [(pstr "notes.txt", none)]⟩ (pstr "o:1") (pstr "zip") 0 = [] := by
  constructor
  · have := (c6_ttl_flooding ⟨0, pstr "n",
      [(pstr "a", pstr "h1", 1), (pstr "b", pstr "h2", 2)],
      [(pstr "notes.txt", none)]⟩ (pstr "o:1") (pstr "zip") 3
      (by decide) (by decide) (by decide)).1 (by decide)
    rw [this]
    rfl
  · exact (c6_ttl_flooding ⟨0, pstr "n",
      [(pstr "a", pstr "h1", 1), (pstr "b", pstr "h2", 2)],
      [(pstr "notes.txt", none)]⟩ (pstr "o:1") (pstr "zip") 0
      (by decide) (by decide) (by decide)).2 rfl

/--
C1: evaluation at the failing input.  For the 4-byte ASCII type `RESP`
(code points `[82, 69, 83, 80]`) and the one-character payload `é`
(code point `[233]`, two UTF-8 bytes), `__makemsg` writes the header length
1 — the CHARACTER count — and `struct.pack` truncates the 2-byte UTF-8
encoding to the single byte `0xC3`; `recvData` then fails to decode that
truncated byte and returns `(None, None)` instead of the original message,
so `decode(encode(type, payload)) = (type, payload)` fails for this UTF-8
payload.
-/
theorem c1_codec_roundtrip_bug :
    makemsg [82, 69, 83, 80] [233] = some [82, 69, 83, 80, 0, 0, 0, 1, 195] ∧
    recvData [82, 69, 83, 80, 0, 0, 0, 1, 195] = none := by
  constructor
  · rfl
  · rfl

/-! Supporting result: the round trip DOES hold whenever the payload is pure
ASCII, because then the character count coincides with the UTF-8 byte count.
This isolates the failure of C1 to non-ASCII payloads. -/

theorem utf8EncodeChar_ascii (c : Nat) (h : c < 0x80) : utf8EncodeChar c = [c] := by
  unfold utf8EncodeChar
  rw [if_pos h]

theorem utf8Str_ascii : ∀ s : List Nat, (∀ c ∈ s, c < 0x80) → utf8Str s = s := by
  intro s
  induction s with
  | nil => intro _; rfl
  | cons c t ih =>
    intro h
    unfold utf8Str at ih ⊢
    simp only [List.map_cons, List.flatten_cons]
    rw [utf8EncodeChar_ascii c (h c (List.mem_cons_self c t)),
      ih (fun x hx => h x (List.mem_cons_of_mem _ hx))]
    rfl

theorem utf8DecodeAux_ascii :
    ∀ (fuel : Nat) (s : List Nat), s.length ≤ fuel → (∀ c ∈ s, c < 0x80) →
      utf8DecodeAux fuel s = some s := by
  intro fuel
  induction fuel with
  | zero =>
    intro s hs _
    have : s = [] := List.length_eq_zero.mp (by omega)
    subst this
    rfl
  | succ f ih =>
    intro s hs h
    match s with
    | [] => rfl
    | b :: t =>
      simp only [utf8DecodeAux]
      rw [if_pos (h b (List.mem_cons_self b t)),
        ih t (by simpa using hs)
          (fun x hx => h x (List.mem_cons_of_mem _ hx))]
      rfl

theorem utf8Decode_ascii : ∀ s : List Nat, (∀ c ∈ s, c < 0x80) → utf8Decode s = some s :=
  fun s h => utf8DecodeAux_ascii s.length s (Nat.le_refl _) h

theorem packBytes_exact (bs : List Nat) : packBytes bs.length bs = bs := by
  unfold packBytes
  rw [List.take_length, Nat.sub_self, List.replicate_zero, List.append_nil]

theorem be32val_be32 (n : Nat) (h : n < 2 ^ 32) : be32val (be32 n) = n := by
  unfold be32 be32val
  simp only [List.foldl_cons, List.foldl_nil]
  omega

theorem readLoop_ascii :
    ∀ (fuel : Nat) (rest : List Nat) (msglen : Nat) (acc : List Nat),
      (∀ b ∈ rest, b < 0x80) → acc.length + rest.length = msglen →
      rest.length < fuel → readLoop fuel rest msglen acc = some (acc ++ rest) := by
  intro fuel
  induction fuel with
  | zero => intro rest msglen acc _ _ hf; omega
  | succ f ih =>
    intro rest msglen acc ha hlen hf
    unfold readLoop
    by_cases hdone : acc.length = msglen
    · rw [if_pos hdone]
      have hr : rest = [] := List.length_eq_zero.mp (by omega)
      subst hr
      simp
    · rw [if_neg hdone]
      have hrest : rest ≠ [] := by
        intro hr
        subst hr
        simp only [List.length_nil] at hlen
        omega
      have hrlen : 0 < rest.length := List.length_pos.mpr hrest
      have hkpos : 0 < min 2048 (msglen - acc.length) := by omega
      have htlen : 0 < (rest.take (min 2048 (msglen - acc.length))).length := by
        rw [List.length_take]
        omega
      have hchunk : ¬ (rest.take (min 2048 (msglen - acc.length))).isEmpty = true := by
        simp only [List.isEmpty_iff]
        intro hnil
        rw [hnil] at htlen
        simp at htlen
      rw [if_neg hchunk]
      rw [utf8Decode_ascii _ (fun b hb => ha b (List.mem_of_mem_take hb))]
      have hdlen : (rest.drop (min 2048 (msglen - acc.length))).length =
          rest.length - min 2048 (msglen - acc.length) := List.length_drop _ _
      show readLoop f (rest.drop (min 2048 (msglen - acc.length))) msglen
        (acc ++ rest.take (min 2048 (msglen - acc.length))) = some (acc ++ rest)
      rw [ih (rest.drop (min 2048 (msglen - acc.length))) msglen
        (acc ++ rest.take (min 2048 (msglen - acc.length)))
        (fun b hb => ha b (List.mem_of_mem_drop hb))
        (by rw [List.length_append, List.length_take]; omega)
        (by omega)]
      rw [List.append_assoc, List.take_append_drop]

/--
The amended round trip: for every 4-character ASCII message type and every
ASCII payload shorter than `2^32` characters, `recvData` applied to the
stream written by `__makemsg` returns exactly the original
`(type, payload)` pair.
-/
theorem recvData_makemsg_ascii (ty payload : List Nat)
    (hty : ty.length = 4) (hta : ∀ c ∈ ty, c < 0x80)
    (hpa : ∀ c ∈ payload, c < 0x80) (hb : payload.length < 2 ^ 32) :
    makemsg ty payload = some (ty ++ be32 payload.length ++ payload) ∧
    recvData (ty ++ be32 payload.length ++ payload) = some (ty, payload) := by
  have hmk : makemsg ty payload = some (ty ++ be32 payload.length ++ payload) := by
    unfold makemsg
    rw [if_pos hb, utf8Str_ascii ty hta, utf8Str_ascii payload hpa]
    rw [show (4 : Nat) = ty.length from hty.symm, packBytes_exact, packBytes_exact]
  refine ⟨hmk, ?_⟩
  have hassoc : ty ++ be32 payload.length ++ payload =
      ty ++ (be32 payload.length ++ payload) := List.append_assoc ..
  have htake : (ty ++ (be32 payload.length ++ payload)).take 4 = ty := by
    rw [← hty]
    exact List.take_left ty _
  have hdrop4 : (ty ++ (be32 payload.length ++ payload)).drop 4 =
      be32 payload.length ++ payload := by
    rw [← hty]
    exact List.drop_left ty _
  have hlenstr : (be32 payload.length ++ payload).take 4 = be32 payload.length := by
    rw [show (4 : Nat) = (be32 payload.length).length from rfl]
    exact List.take_left _ _
  have hdrop8 : (ty ++ (be32 payload.length ++ payload)).drop 8 = payload := by
    rw [show (8 : Nat) = 4 + 4 from rfl, ← List.drop_drop, hdrop4]
    rw [show (4 : Nat) = (be32 payload.length).length from rfl]
    exact List.drop_left _ _
  have htyne : ¬ ty = [] := by
    intro h
    rw [h] at hty
    simp at hty
  unfold recvData
  rw [hassoc, htake, utf8Decode_ascii ty hta]
  simp only [Option.some.injEq]
  rw [if_neg htyne, hdrop4, hlenstr]
  rw [if_pos (show (be32 payload.length).length = 4 from rfl)]
  rw [hdrop8, be32val_be32 payload.length hb]
  rw [readLoop_ascii (payload.length + 1) payload payload.length [] hpa
    (by simp) (by omega)]
  rw [List.nil_append]

end FileShareApp
